import Mathlib

/-!
Verification of the Mines game engine (provably-fair shuffle, payout model,
solo round reducer, duel round state machine) against its specification.

The definitions below are shallow embeddings of the TypeScript source:

* `generateBombLocations` and its Fisher-Yates hash-chain loop come from the
  helper of the same name (solo component, lines 433-454, and the identical
  copy in `MultiplayerMinesGame.tsx`, lines 358-379).
* `calculateMultiplier` embeds the payout formula (lines 117-125).
* `gameReducer` embeds the solo reducer (lines 37-115); `settleSolo` embeds
  the settlement effect (lines 144-184).
* `processMove`, `skipBustedTurn`, `handleCoinflipComplete` embed the duel
  component (`MultiplayerMinesGame.tsx`).

External libraries (the SHA-256 of crypto-js, the seedrandom PRNG) are not
part of this repository; they are modelled as opaque function parameters.
JavaScript numbers that the code only ever uses for exact small-integer or
exact-rational arithmetic are modelled as `ℕ`/`ℤ`/`ℚ`.
-/

/-! ## Payout model (calculateMultiplier, source lines 117-125) -/

/-- Cumulative survival chance after `safeRevealed` safe reveals: the running
product `chance *= (25 - bombCount - i) / (25 - i)` for `i = 0, ..., k-1`,
with JavaScript's real-valued subtraction modelled by casting to `ℚ`. -/
def chanceLoop (bombCount : ℕ) : ℕ → ℚ
  | 0 => 1
  | k + 1 => chanceLoop bombCount k * ((25 - (bombCount : ℚ) - (k : ℚ)) / (25 - (k : ℚ)))

/-- Payout multiplier: `houseEdge / chance` with `houseEdge = 0.99`,
`totalTiles = 25` (source lines 117-125). -/
def calculateMultiplier (safeRevealed bombCount : ℕ) : ℚ :=
  (99 / 100) / chanceLoop bombCount safeRevealed

/-! ## JavaScript string and number helpers used by the shuffle -/

/-- Value of a single hexadecimal digit, as used by JavaScript `parseInt(s, 16)`. -/
def hexDigitVal (c : Char) : Option ℕ :=
  if '0' ≤ c ∧ c ≤ '9' then some (c.toNat - '0'.toNat)
  else if 'a' ≤ c ∧ c ≤ 'f' then some (c.toNat - 'a'.toNat + 10)
  else if 'A' ≤ c ∧ c ≤ 'F' then some (c.toNat - 'A'.toNat + 10)
  else none

/-- Accumulating loop of `parseInt(s, 16)`: consume hex digits until the first
invalid character. -/
def parseIntHexGo : List Char → ℕ → ℕ
  | [], acc => acc
  | c :: cs, acc =>
    match hexDigitVal c with
    | some v => parseIntHexGo cs (acc * 16 + v)
    | none => acc

/-- JavaScript `parseInt(s, 16)` restricted to the inputs that occur here
(8-character digest segments: no sign, no whitespace, no `0x` markers):
`none` models the `NaN` result when the string has no leading hex digit. -/
def parseIntHex (s : String) : Option ℕ :=
  match s.data with
  | [] => none
  | c :: cs =>
    match hexDigitVal c with
    | some v => some (parseIntHexGo cs v)
    | none => none

/-- JavaScript `s.substring(start, stop)` for `start ≤ stop` (the only way the
source calls it), as a character slice. -/
def substringJS (s : String) (start stop : ℕ) : String :=
  ⟨(s.data.drop start).take (stop - start)⟩

/-- JavaScript array destructuring swap `[a[i], a[j]] = [a[j], a[i]]`: the
right-hand pair is read first, then both cells are written. Indices are in
range at every call site. -/
def swapJS (l : List ℕ) (i j : ℕ) : List ℕ :=
  (l.set i (l.getD j 0)).set j (l.getD i 0)

/-- JavaScript number restricted to how the source uses it for `nonce` and
`bombCount`: either `NaN` or an exact integer. -/
inductive JSNum
  | nan
  | num (n : ℤ)
deriving DecidableEq

/-- The `isNaN(x)` test. -/
def JSNum.isNaN : JSNum → Bool
  | .nan => true
  | .num _ => false

/-- JavaScript string interpolation of a number (integers print in decimal,
`NaN` prints as `"NaN"`). -/
def JSNum.toStr : JSNum → String
  | .nan => "NaN"
  | .num n => toString n

/-- JavaScript `l.slice(0, e)`: a negative end counts from the end of the
array, `NaN` converts to `0`. -/
def jsSliceTo (l : List ℕ) (e : JSNum) : List ℕ :=
  match e with
  | .nan => []
  | .num n => if n < 0 then l.take ((l.length : ℤ) + n).toNat else l.take n.toNat

/-! ## Deterministic shuffle (generateBombLocations, source lines 433-454)

The SHA-256 hex digest function of crypto-js is an external library; it is
modelled as an opaque parameter `H : String → String` standing for
`s => crypto.SHA256(s).toString(crypto.enc.Hex)`. On genuine digests every
8-character segment parses, so `(parseIntHex seg).getD 0` agrees with the
source's `parseInt(hashSegment, 16)` wherever that call can occur. -/

/-- One source loop `for (let i = tiles.length - 1; i > 0; i--)`: at index
`i`, read the 8-hex-character segment of the current digest at character
offset `(i % 8) * 8`, parse it, swap positions `i` and `r % (i + 1)`, then
rehash the digest string for the next step. -/
def fyLoop (H : String → String) : ℕ → String → List ℕ → List ℕ
  | 0, _, ts => ts
  | i + 1, hsh, ts =>
    let seg := substringJS hsh (((i + 1) % 8) * 8) ((((i + 1) % 8) * 8) + 8)
    let r := (parseIntHex seg).getD 0
    let j := r % (i + 2)
    fyLoop H i (H hsh) (swapJS ts (i + 1) j)

/-- The full permutation built by `generateBombLocations` before truncation:
Fisher-Yates over `[0, 25)` from index 24 down to 1. -/
def fisherYatesPermutation (H : String → String) (hash : String) : List ℕ :=
  fyLoop H 24 hash (List.range 25)

/-- Embedding of `generateBombLocations(serverSeed, clientSeed, nonce,
bombCount)` (source lines 433-454). -/
def generateBombLocations (H : String → String) (serverSeed clientSeed : String)
    (nonce bombCount : JSNum) : List ℕ :=
  if serverSeed = "" ∨ clientSeed = "" ∨ nonce.isNaN = true ∨ bombCount.isNaN = true then []
  else
    let combinedSeed := serverSeed ++ "-" ++ clientSeed ++ "-" ++ nonce.toStr
    jsSliceTo (fisherYatesPermutation H (H combinedSeed)) bombCount

/-- Modelled from the spec (section 4.2, step of the shuffle): at descending
index `i = k - s` of step number `s`, the digest in force is the initial
digest rehashed `s` times, the 32-bit segment sits at character offset
`(i mod 8) * 8`, and the swap partner is `r mod (i + 1)`. -/
def specStep (H : String → String) (d0 : String) (k : ℕ) (ts : List ℕ) (s : ℕ) : List ℕ :=
  let i := k - s
  let d := H^[s] d0
  let r := (parseIntHex (substringJS d ((i % 8) * 8) ((i % 8) * 8 + 8))).getD 0
  swapJS ts i (r % (i + 1))

/-- Modelled from the spec (section 4.2): Fisher-Yates over indices `N-1 = 24`
down to `1`, advancing the digest by one rehash after every swap, starting
from `digest0`. -/
def shuffleSpec (H : String → String) (d0 : String) : List ℕ :=
  (List.range 24).foldl (specStep H d0 24) (List.range 25)

/-! ## Solo round state machine (source lines 19-125) -/

/-- Phases of the solo round (`'betting' | 'playing' | 'finished'`). -/
inductive SoloPhase
  | betting
  | playing
  | finished
deriving DecidableEq

/-- One board tile of the solo game (source lines 12-17). -/
structure STile where
  id : ℕ
  isRevealed : Bool
  isBomb : Bool
  isSelected : Bool
deriving DecidableEq

/-- State managed by the solo reducer (source lines 19-26). -/
structure SoloState where
  gameState : SoloPhase
  betAmount : ℚ
  bombCount : ℕ
  tiles : List STile
  currentMultiplier : ℚ
  safeRevealed : ℕ
deriving DecidableEq

/-- The `initialState` constant (source lines 19-26). -/
def soloInitialState : SoloState :=
  { gameState := .betting
    betAmount := 1 / 10
    bombCount := 5
    tiles := (List.range 25).map (fun i => { id := i, isRevealed := false, isBomb := false, isSelected := false })
    currentMultiplier := 1
    safeRevealed := 0 }

/-- Actions of the solo reducer (source lines 28-35). -/
inductive SoloAction
  | setGameState (p : SoloPhase)
  | setBetAmount (a : ℚ)
  | setBombCount (b : ℕ)
  | resetGame
  | initializeGame (bombCount : ℕ) (tiles : List STile)
  | revealTile (tileId : ℕ)
  | cashOut

/-- Embedding of `gameReducer` (source lines 37-115). Toast calls are pure UI
side effects and are dropped. Accessing `tiles[tileId]` out of range throws a
TypeError in JavaScript before any state update, so that case leaves the
state unchanged. The board-cleared comparison `newSafeRevealed === 25 -
bombCount` is integer arithmetic, taken over `ℤ`. -/
def gameReducer (st : SoloState) (a : SoloAction) : SoloState :=
  match a with
  | .setGameState p => { st with gameState := p }
  | .setBetAmount a => { st with betAmount := a }
  | .setBombCount b => { st with bombCount := b }
  | .resetGame => { soloInitialState with betAmount := st.betAmount, bombCount := st.bombCount }
  | .initializeGame b ts =>
      { st with bombCount := b, tiles := ts, gameState := .playing,
                safeRevealed := 0, currentMultiplier := 1 }
  | .revealTile tileId =>
      match st.tiles.get? tileId with
      | none => st
      | some tile =>
        if tile.isRevealed then st
        else if tile.isBomb then
          { st with gameState := .finished,
                    tiles := st.tiles.map (fun t => { t with isRevealed := true }) }
        else
          let newSafeRevealed := st.safeRevealed + 1
          let newMultiplier := calculateMultiplier newSafeRevealed st.bombCount
          let newTiles := st.tiles.map (fun t => if t.id = tileId then { t with isRevealed := true } else t)
          if (newSafeRevealed : ℤ) = 25 - (st.bombCount : ℤ) then
            { st with tiles := newTiles.map (fun t => { t with isRevealed := true }),
                      safeRevealed := newSafeRevealed,
                      currentMultiplier := newMultiplier,
                      gameState := .finished }
          else
            { st with tiles := newTiles,
                      safeRevealed := newSafeRevealed,
                      currentMultiplier := newMultiplier }
  | .cashOut => { st with gameState := .finished }

/-- The `revealTile` click callback (source lines 222-225): reveals are
dispatched only while the round is `playing`. -/
def revealTileClick (st : SoloState) (tileId : ℕ) : SoloState :=
  if st.gameState = .playing then gameReducer st (.revealTile tileId) else st

/-- One record passed to `addGame` by the settlement effect: the fields that
decide win versus loss. -/
structure GameRecord where
  netProfit : ℚ
  wageredAmount : ℚ
  multiplier : ℚ
deriving DecidableEq

/-- Embedding of the settlement effect (source lines 144-184), which runs on
the transition from `playing` to `finished`: a game is recorded as a loss
exactly when some revealed tile is a bomb, else as a win with the stored
multiplier. -/
def settleSolo (st : SoloState) : GameRecord :=
  if st.tiles.any (fun t => t.isBomb && t.isRevealed) then
    { netProfit := -st.betAmount, wageredAmount := st.betAmount, multiplier := 0 }
  else
    { netProfit := st.betAmount * st.currentMultiplier - st.betAmount,
      wageredAmount := st.betAmount, multiplier := st.currentMultiplier }

/-- JavaScript `userProfile?.clientSeed || 'not_available'`: the placeholder
is used when the profile is absent or its seed is the empty string (falsy). -/
def defaultClientSeed : Option String → String
  | some s => if s = "" then "not_available" else s
  | none => "not_available"

/-- Embedding of `initializeGame` (source lines 186-220). The freshly drawn
random server seed and the profile data are parameters; `none` models the
early return on a non-positive bet. The dispatched `INITIALIZE_GAME` builds
the 25 tiles with bombs at the generated positions. -/
def initializeGame (H : String → String) (serverSeed : String)
    (clientSeedOpt : Option String) (totalGames : ℕ) (st : SoloState) : Option SoloState :=
  if st.betAmount ≤ 0 then none
  else
    let clientSeed := defaultClientSeed clientSeedOpt
    let nonce : ℤ := (totalGames : ℤ) + 1
    let bombLocations := generateBombLocations H serverSeed clientSeed (.num nonce) (.num (st.bombCount : ℤ))
    let newTiles := (List.range 25).map
      (fun i => ({ id := i, isRevealed := false, isBomb := bombLocations.contains i, isSelected := false } : STile))
    some (gameReducer st (.initializeGame st.bombCount newTiles))

/-! ## Duel round state machine (MultiplayerMinesGame.tsx) -/

/-- The two sides of a duel round. -/
inductive Side
  | player
  | opponent
deriving DecidableEq

/-- The turn hand-off `moveMaker === 'player' ? 'opponent' : 'player'`. -/
def Side.other : Side → Side
  | .player => .opponent
  | .opponent => .player

/-- One board tile of the duel game (MultiplayerMinesGame.tsx lines 23-28). -/
structure DTile where
  id : ℕ
  isRevealed : Bool
  isBomb : Bool
  revealedBy : Option Side
deriving DecidableEq

/-- Duel game state (MultiplayerMinesGame.tsx lines 30-46). `winner = none`
models the `null` of the source; the `'tie'` variant of the source type is
never assigned. -/
structure DuelState where
  tiles : List DTile
  activeTurn : Side
  playerScore : ℕ
  opponentScore : ℕ
  playerHasHitBomb : Bool
  opponentHasHitBomb : Bool
  gameOver : Bool
  winner : Option Side
  minesPlaced : Bool
  betAmount : ℚ
  bombCount : ℕ
  gameSeed : String
deriving DecidableEq

/-- Coinflip dialog state (MultiplayerMinesGame.tsx lines 48-51); `showFlag`
embeds the `show` field. -/
structure CoinflipState where
  showFlag : Bool
  winner : Option Side
deriving DecidableEq

/-- One record passed to `addGame` at the end of a duel round. -/
structure DuelRecord where
  wageredAmount : ℚ
  netProfit : ℚ
  multiplier : ℚ
deriving DecidableEq

/-- Result of one `processMove` call: the next state, the coinflip dialog
state, and the settlement record if the move ended the round with a direct
winner. -/
structure DuelMoveResult where
  state : DuelState
  coinflip : CoinflipState
  settled : Option DuelRecord
deriving DecidableEq

/-- The tie-break coin of the source (lines 198 and 215):
`seedrandom(gameSeed + 'tie')() < 0.5 ? 'player' : 'opponent'`. The external
seedrandom library is modelled as an opaque parameter `rng : String → ℚ`
returning the generator's first output, normalized to `[0, 1)`. -/
def tieBreakWinner (rng : String → ℚ) (gameSeed : String) : Side :=
  if rng (gameSeed ++ "tie") < 1 / 2 then .player else .opponent

/-- Modelled from the spec (section 4.5): the tie-break coin is derived from
`SHA256(round_seed || "tie")` compared against `0.5` in normalized form. The
missing piece is the SHA-256 digest normalization, modelled as an opaque
parameter `sha256norm : String → ℚ` (digest scaled into `[0, 1)`). -/
def tieBreakWinnerSpec (sha256norm : String → ℚ) (roundSeed : String) : Side :=
  if sha256norm (roundSeed ++ "tie") < 1 / 2 then .player else .opponent

/-- Move-rejection guards at the top of `processMove` (lines 157-159): round
over, acting side already busted, or not that side's turn. -/
def duelRejected (st : DuelState) (moveMaker : Side) : Bool :=
  st.gameOver ||
  (moveMaker == .player && (st.playerHasHitBomb || st.activeTurn != .player)) ||
  (moveMaker == .opponent && (st.opponentHasHitBomb || st.activeTurn != .opponent))

/-- Lazy mine placement (lines 161-167): when mines are not yet placed, the
external-PRNG-driven `placeMines` loop (lines 78-88) marks its chosen
positions as bombs. That loop draws from the seedrandom stream until it has
`bombCount` positions distinct from the first click, so its termination
depends on the stream; it is modelled as the oracle `placeO` taking the same
four arguments `(firstClickedId, bombCount, totalTiles, seed)`. -/
def duelPlaceMines (placeO : ℕ → ℕ → ℕ → String → Finset ℕ)
    (tileId : ℕ) (st : DuelState) : DuelState :=
  if st.minesPlaced then st
  else
    { st with
      tiles := st.tiles.enum.map
        (fun p => if p.1 ∈ placeO tileId st.bombCount 25 st.gameSeed then { p.2 with isBomb := true } else p.2),
      minesPlaced := true }

/-- Reveal of the clicked tile and score or bust update (lines 169-184).
`none` models the TypeError a JavaScript out-of-range access would throw
before any update is applied. -/
def duelApplyReveal (st : DuelState) (tileId : ℕ) (moveMaker : Side) : Option DuelState :=
  match st.tiles.get? tileId with
  | none => none
  | some t0 =>
    let t := { t0 with isRevealed := true, revealedBy := some moveMaker }
    let st1 := { st with tiles := st.tiles.set tileId t }
    some (if t.isBomb then
      (if moveMaker == .player then { st1 with playerHasHitBomb := true }
       else { st1 with opponentHasHitBomb := true })
    else
      (if moveMaker == .player then { st1 with playerScore := st1.playerScore + 1 }
       else { st1 with opponentScore := st1.opponentScore + 1 }))

/-- End-of-round evaluation (lines 186-220) as a triple: round over, direct
winner, and whether the equal-score coinflip was triggered. The all-safe
count comparison is integer arithmetic, taken over `ℤ`. -/
def duelOutcome (st : DuelState) : Bool × Option Side × Bool :=
  if ((st.tiles.filter (fun t => !t.isBomb && t.isRevealed)).length : ℤ) = 25 - (st.bombCount : ℤ) then
    if st.playerScore > st.opponentScore then (true, some .player, false)
    else if st.opponentScore > st.playerScore then (true, some .opponent, false)
    else (true, none, true)
  else if st.playerHasHitBomb ∧ st.opponentScore > st.playerScore then (true, some .opponent, false)
  else if st.opponentHasHitBomb ∧ st.playerScore > st.opponentScore then (true, some .player, false)
  else if st.playerHasHitBomb ∧ st.opponentHasHitBomb then
    if st.playerScore > st.opponentScore then (true, some .player, false)
    else if st.opponentScore > st.playerScore then (true, some .opponent, false)
    else (true, none, true)
  else (false, none, false)

/-- Embedding of `processMove` (lines 154-246). With a direct winner the
round finishes: all tiles are revealed and one settlement record is emitted
(stake wagered, ±stake net, multiplier 2 or 0). On an equal-score ending the
round is over with no winner yet and the coinflip dialog opens on the
tie-break side. Otherwise the turn passes to the other side. -/
def processMove (placeO : ℕ → ℕ → ℕ → String → Finset ℕ) (rng : String → ℚ)
    (st : DuelState) (cf : CoinflipState) (tileId : ℕ) (moveMaker : Side) : DuelMoveResult :=
  if duelRejected st moveMaker then ⟨st, cf, none⟩
  else
    match duelApplyReveal (duelPlaceMines placeO tileId st) tileId moveMaker with
    | none => ⟨st, cf, none⟩
    | some st2 =>
      match duelOutcome st2 with
      | (false, _, _) => ⟨{ st2 with activeTurn := moveMaker.other }, cf, none⟩
      | (true, some w, _) =>
          ⟨{ st2 with gameOver := true, winner := some w,
                      tiles := st2.tiles.map (fun t => { t with isRevealed := true }) },
           cf,
           some { wageredAmount := st2.betAmount,
                  netProfit := if w == .player then st2.betAmount else -st2.betAmount,
                  multiplier := if w == .player then 2 else 0 }⟩
      | (true, none, _) =>
          ⟨{ st2 with gameOver := true },
           { showFlag := true, winner := some (tieBreakWinner rng st2.gameSeed) },
           none⟩

/-- Turn-skip effect (lines 133-151): while the round is running, a busted
side at the turn pointer is skipped and the turn passes to the other side;
nothing else changes. -/
def skipBustedTurn (st : DuelState) : DuelState :=
  if st.gameOver then st
  else if st.activeTurn = .player ∧ st.playerHasHitBomb then { st with activeTurn := .opponent }
  else if st.activeTurn = .opponent ∧ st.opponentHasHitBomb then { st with activeTurn := .player }
  else st

/-- Embedding of `handleCoinflipComplete` (lines 260-273): the animated coin
lands, the winner is written into the round state, the dialog closes, and the
settlement record for the coinflip winner is emitted. -/
def handleCoinflipComplete (w : Side) (st : DuelState) (cf : CoinflipState) :
    DuelState × CoinflipState × DuelRecord :=
  ({ st with winner := some w },
   { cf with showFlag := false },
   { wageredAmount := st.betAmount,
     netProfit := if w == .player then st.betAmount else -st.betAmount,
     multiplier := if w == .player then 2 else 0 })

/-- Concrete jackpot board for the full-clear settlement check: tile 0 is the
only safe tile, tiles 1 to 24 are bombs. -/
def jackpotTiles : List STile :=
  (List.range 25).map (fun i => { id := i, isRevealed := false, isBomb := decide (i ≠ 0), isSelected := false })

/-- Concrete solo round in `playing` state with 24 bombs and stake 1, one
safe reveal away from clearing the board. -/
def jackpotState : SoloState :=
  { gameState := .playing, betAmount := 1, bombCount := 24, tiles := jackpotTiles,
    currentMultiplier := 1, safeRevealed := 0 }

/-- Concrete two-tile solo round in `playing` state whose tile 0 is an
unrevealed bomb. -/
def soloBombState : SoloState :=
  { gameState := .playing, betAmount := 2, bombCount := 1,
    tiles := [{ id := 0, isRevealed := false, isBomb := true, isSelected := false },
              { id := 1, isRevealed := false, isBomb := false, isSelected := false }],
    currentMultiplier := 1, safeRevealed := 0 }

/-- Concrete duel state: the opponent has already busted, scores are level,
the player is about to reveal the last remaining tile, a bomb. -/
def duelTieState : DuelState :=
  { tiles := [{ id := 0, isRevealed := false, isBomb := true, revealedBy := none }],
    activeTurn := .player, playerScore := 0, opponentScore := 0,
    playerHasHitBomb := false, opponentHasHitBomb := true,
    gameOver := false, winner := none, minesPlaced := true,
    betAmount := 1, bombCount := 3, gameSeed := "g" }

/-- Concrete duel state one safe reveal away from a fully cleared board
(24 bombs, one safe tile left): the player's next safe reveal levels the
scores at the same moment the last safe tile is revealed. -/
def duelAllSafeTieState : DuelState :=
  { tiles := [{ id := 0, isRevealed := false, isBomb := false, revealedBy := none }],
    activeTurn := .player, playerScore := 0, opponentScore := 1,
    playerHasHitBomb := false, opponentHasHitBomb := true,
    gameOver := false, winner := none, minesPlaced := true,
    betAmount := 1, bombCount := 24, gameSeed := "g" }

/-! ## Theorems -/

theorem chanceLoop_pos (b : ℕ) : ∀ k : ℕ, b + k ≤ 25 → 0 < chanceLoop b k := by
  intro k
  induction k with
  | zero => intro _; norm_num [chanceLoop]
  | succ k ih =>
    intro h
    have hk : b + k ≤ 25 := by omega
    have hlt : (b : ℚ) + k < 25 := by
      have : b + k < 25 := by omega
      exact_mod_cast this
    have hk25 : (k : ℚ) < 25 := by
      have : k < 25 := by omega
      exact_mod_cast this
    have hnum : 0 < 25 - (b : ℚ) - (k : ℚ) := by linarith
    have hden : 0 < 25 - (k : ℚ) := by linarith
    have := ih hk
    simp only [chanceLoop]
    positivity

theorem chanceLoop_succ_lt (b : ℕ) (k : ℕ) (hb : 1 ≤ b) (h : b + k + 1 ≤ 25) :
    chanceLoop b (k + 1) < chanceLoop b k := by
  have hpos := chanceLoop_pos b k (by omega)
  have hlt : (b : ℚ) + k < 25 := by
    have : b + k < 25 := by omega
    exact_mod_cast this
  have hb1 : (1 : ℚ) ≤ (b : ℚ) := by exact_mod_cast hb
  have hnum : 0 < 25 - (b : ℚ) - (k : ℚ) := by linarith
  have hden : 0 < 25 - (k : ℚ) := by linarith
  have hfrac : (25 - (b : ℚ) - (k : ℚ)) / (25 - (k : ℚ)) < 1 := by
    rw [div_lt_one hden]
    linarith
  have hfp : 0 < (25 - (b : ℚ) - (k : ℚ)) / (25 - (k : ℚ)) := div_pos hnum hden
  calc chanceLoop b (k + 1)
      = chanceLoop b k * ((25 - (b : ℚ) - (k : ℚ)) / (25 - (k : ℚ))) := rfl
    _ < chanceLoop b k * 1 := by exact mul_lt_mul_of_pos_left hfrac hpos
    _ = chanceLoop b k := mul_one _

theorem chanceLoop_anti_bomb (b : ℕ) : ∀ k : ℕ, 1 ≤ k → (b + 1) + k ≤ 25 →
    chanceLoop (b + 1) k < chanceLoop b k := by
  intro k
  induction k with
  | zero => intro h; omega
  | succ k ih =>
    intro _ h
    have hklt25 : ((b : ℚ) + 1) + (k : ℚ) < 25 := by
      have hn : (b + 1) + k < 25 := by omega
      have hc : (((b + 1) + k : ℕ) : ℚ) < 25 := by exact_mod_cast hn
      push_cast at hc
      linarith
    have hnum1 : 0 < 25 - ((b : ℚ) + 1) - (k : ℚ) := by linarith
    have hnum0 : 25 - ((b : ℚ) + 1) - (k : ℚ) < 25 - (b : ℚ) - (k : ℚ) := by linarith
    have hden : 0 < 25 - (k : ℚ) := by linarith
    have hflt : (25 - ((b : ℚ) + 1) - (k : ℚ)) / (25 - (k : ℚ)) <
        (25 - (b : ℚ) - (k : ℚ)) / (25 - (k : ℚ)) := by
      gcongr
    rcases Nat.eq_zero_or_pos k with hk0 | hkpos
    · subst hk0
      simp only [chanceLoop, Nat.cast_zero, one_mul]
      push_cast at hflt ⊢
      convert hflt using 2
    · have hklt : chanceLoop (b + 1) k < chanceLoop b k := ih hkpos (by omega)
      have hf1 : 0 < (25 - ((b : ℚ) + 1) - (k : ℚ)) / (25 - (k : ℚ)) := div_pos hnum1 hden
      simp only [chanceLoop]
      push_cast
      calc chanceLoop (b + 1) k * ((25 - ((b : ℚ) + 1) - (k : ℚ)) / (25 - (k : ℚ)))
          < chanceLoop b k * ((25 - ((b : ℚ) + 1) - (k : ℚ)) / (25 - (k : ℚ))) :=
            mul_lt_mul_of_pos_right hklt hf1
        _ < chanceLoop b k * ((25 - (b : ℚ) - (k : ℚ)) / (25 - (k : ℚ))) :=
            mul_lt_mul_of_pos_left hflt (chanceLoop_pos b k (by omega))

theorem getD_cons_set_perm : ∀ (xs : List ℕ) (j x : ℕ), j < xs.length →
    ((xs.getD j 0) :: xs.set j x).Perm (x :: xs) := by
  intro xs
  induction xs with
  | nil => intro j x h; simp at h
  | cons y ys ih =>
    intro j x h
    cases j with
    | zero =>
      simp only [List.getD_cons_zero, List.set_cons_zero]
      exact List.Perm.swap x y ys
    | succ j =>
      simp only [List.getD_cons_succ, List.set_cons_succ]
      have h1 : ((ys.getD j 0) :: y :: ys.set j x).Perm (y :: (ys.getD j 0) :: ys.set j x) :=
        List.Perm.swap y (ys.getD j 0) _
      have h2 : ((ys.getD j 0) :: ys.set j x).Perm (x :: ys) := ih j x (by simpa using h)
      exact h1.trans ((h2.cons y).trans (List.Perm.swap x y ys))

theorem swapJS_perm : ∀ (l : List ℕ) (i j : ℕ), i < l.length → j < l.length →
    (swapJS l i j).Perm l := by
  intro l
  induction l with
  | nil => intro i j hi _; simp at hi
  | cons y ys ih =>
    intro i j hi hj
    cases i with
    | zero =>
      cases j with
      | zero => simp [swapJS]
      | succ j =>
        have hs : swapJS (y :: ys) 0 (j + 1) = (ys.getD j 0) :: ys.set j y := by
          simp [swapJS]
        rw [hs]
        exact getD_cons_set_perm ys j y (by simpa using hj)
    | succ i =>
      cases j with
      | zero =>
        have hs : swapJS (y :: ys) (i + 1) 0 = (ys.getD i 0) :: ys.set i y := by
          simp [swapJS]
        rw [hs]
        exact getD_cons_set_perm ys i y (by simpa using hi)
      | succ j =>
        have hs : swapJS (y :: ys) (i + 1) (j + 1) = y :: swapJS ys i j := by
          simp [swapJS]
        rw [hs]
        exact (ih i j (by simpa using hi) (by simpa using hj)).cons y

theorem fyLoop_perm (H : String → String) : ∀ (k : ℕ) (d : String) (ts : List ℕ),
    k < ts.length → (fyLoop H k d ts).Perm ts := by
  intro k
  induction k with
  | zero => intro d ts _; exact List.Perm.refl _
  | succ k ih =>
    intro d ts h
    have hstep : fyLoop H (k + 1) d ts =
        fyLoop H k (H d) (swapJS ts (k + 1)
          ((parseIntHex (substringJS d (((k + 1) % 8) * 8) ((((k + 1) % 8) * 8) + 8))).getD 0 % (k + 2))) := by
      simp [fyLoop]
    rw [hstep]
    have hj2 : (parseIntHex (substringJS d (((k + 1) % 8) * 8) ((((k + 1) % 8) * 8) + 8))).getD 0 % (k + 2) < ts.length :=
      lt_of_lt_of_le (Nat.mod_lt _ (by omega)) (by omega)
    have hswap := swapJS_perm ts (k + 1) _ h hj2
    exact (ih (H d) _ (by rw [hswap.length_eq]; omega)).trans hswap

theorem fisherYatesPermutation_perm (H : String → String) (hash : String) :
    (fisherYatesPermutation H hash).Perm (List.range 25) :=
  fyLoop_perm H 24 hash (List.range 25) (by simp)

theorem fyLoop_eq_range_foldl (H : String → String) :
    ∀ (k : ℕ) (d : String) (ts : List ℕ),
      fyLoop H k d ts = (List.range k).foldl (specStep H d k) ts := by
  intro k
  induction k with
  | zero => intro d ts; simp [fyLoop]
  | succ k ih =>
    intro d ts
    rw [List.range_succ_eq_map, List.foldl_cons, List.foldl_map]
    have h1 : specStep H d (k + 1) ts 0 =
        swapJS ts (k + 1)
          ((parseIntHex (substringJS d (((k + 1) % 8) * 8) (((k + 1) % 8) * 8 + 8))).getD 0 % (k + 2)) := by
      simp [specStep]
    have h2 : (fun (l : List ℕ) (s : ℕ) => specStep H d (k + 1) l (Nat.succ s)) = specStep H (H d) k := by
      funext l s
      simp [specStep, Nat.succ_sub_succ, Function.iterate_succ_apply]
    rw [h1, h2]
    have h3 : fyLoop H (k + 1) d ts =
        fyLoop H k (H d) (swapJS ts (k + 1)
          ((parseIntHex (substringJS d (((k + 1) % 8) * 8) (((k + 1) % 8) * 8 + 8))).getD 0 % (k + 2))) := by
      simp [fyLoop]
    rw [h3, ih]

theorem generateBombLocations_valid (H : String → String) (ss cs : String) (n : ℤ) (b : ℕ)
    (hss : ss ≠ "") (hcs : cs ≠ "") (hb : b ≤ 25) :
    generateBombLocations H ss cs (.num n) (.num (b : ℤ)) =
      (fisherYatesPermutation H (H (ss ++ "-" ++ cs ++ "-" ++ toString n))).take b ∧
    (generateBombLocations H ss cs (.num n) (.num (b : ℤ))).Nodup ∧
    (∀ x ∈ generateBombLocations H ss cs (.num n) (.num (b : ℤ)), x < 25) ∧
    (generateBombLocations H ss cs (.num n) (.num (b : ℤ))).length = b := by
  have hgb : generateBombLocations H ss cs (.num n) (.num (b : ℤ)) =
      (fisherYatesPermutation H (H (ss ++ "-" ++ cs ++ "-" ++ toString n))).take b := by
    simp only [generateBombLocations, JSNum.isNaN, JSNum.toStr, jsSliceTo]
    rw [if_neg, if_neg]
    · simp
    · simp
    · simp [hss, hcs]
  refine ⟨hgb, ?_, ?_, ?_⟩
  · rw [hgb]
    have hnd : (fisherYatesPermutation H (H (ss ++ "-" ++ cs ++ "-" ++ toString n))).Nodup :=
      (fisherYatesPermutation_perm H _).nodup_iff.mpr (List.nodup_range 25)
    exact hnd.sublist (List.take_sublist b _)
  · rw [hgb]
    intro x hx
    have hx2 : x ∈ fisherYatesPermutation H (H (ss ++ "-" ++ cs ++ "-" ++ toString n)) :=
      (List.take_sublist b _).subset hx
    have := (fisherYatesPermutation_perm H _).mem_iff.mp hx2
    simpa using this
  · rw [hgb, List.length_take, (fisherYatesPermutation_perm H _).length_eq]
    simp
    omega

theorem countP_range_contains (l : List ℕ) (n : ℕ) (hnd : l.Nodup) (hlt : ∀ x ∈ l, x < n) :
    (List.range n).countP (fun i => l.contains i) = l.length := by
  rw [List.countP_eq_length_filter]
  have hfnd : ((List.range n).filter (fun i => l.contains i)).Nodup :=
    (List.nodup_range n).filter _
  have hperm : ((List.range n).filter (fun i => l.contains i)).Perm l := by
    apply (List.perm_ext_iff_of_nodup hfnd hnd).mpr
    intro a
    simp only [List.mem_filter, List.mem_range, List.elem_iff]
    constructor
    · rintro ⟨_, h2⟩; exact h2
    · intro h2; exact ⟨hlt a h2, h2⟩
  exact hperm.length_eq

/-- C1: for every hash oracle and non-empty seeds, the permutation computed
by `generateBombLocations` is exactly the spec's shuffle — step `i` of a
Fisher-Yates loop from 24 down to 1 takes the 8-hex-character segment of the
current digest at offset `(i mod 8) * 8`, swaps `i` with `r mod (i + 1)`, and
rehashes the digest's hex representation after each step, starting from
`digest0 = H(server_seed ++ "-" ++ client_seed ++ "-" ++ nonce)`. -/
theorem c1_shuffle_matches_spec (H : String → String) (ss cs : String) (n b : ℤ)
    (hss : ss ≠ "") (hcs : cs ≠ "") :
    fisherYatesPermutation H (H (ss ++ "-" ++ cs ++ "-" ++ toString n)) =
      shuffleSpec H (H (ss ++ "-" ++ cs ++ "-" ++ toString n)) ∧
    generateBombLocations H ss cs (.num n) (.num b) =
      jsSliceTo (shuffleSpec H (H (ss ++ "-" ++ cs ++ "-" ++ toString n))) (.num b) := by
  have h1 : fisherYatesPermutation H (H (ss ++ "-" ++ cs ++ "-" ++ toString n)) =
      shuffleSpec H (H (ss ++ "-" ++ cs ++ "-" ++ toString n)) :=
    fyLoop_eq_range_foldl H 24 _ (List.range 25)
  refine ⟨h1, ?_⟩
  simp only [generateBombLocations, JSNum.isNaN, JSNum.toStr]
  rw [if_neg (by simp [hss, hcs]), h1]

/-- Closed instance of C1 at a concrete hash oracle and seeds. -/
theorem c1_shuffle_matches_spec_witness :
    ("a" : String) ≠ "" ∧
    (fisherYatesPermutation (fun _ => "80000000") ((fun _ => "80000000") ("a" ++ "-" ++ "b" ++ "-" ++ toString (1 : ℤ))) =
      shuffleSpec (fun _ => "80000000") ((fun _ => "80000000") ("a" ++ "-" ++ "b" ++ "-" ++ toString (1 : ℤ))) ∧
    generateBombLocations (fun _ => "80000000") "a" "b" (.num 1) (.num 3) =
      jsSliceTo (shuffleSpec (fun _ => "80000000") ((fun _ => "80000000") ("a" ++ "-" ++ "b" ++ "-" ++ toString (1 : ℤ)))) (.num 3)) :=
  ⟨by decide, c1_shuffle_matches_spec (fun _ => "80000000") "a" "b" 1 3 (by decide) (by decide)⟩

/-- C5: for every hash oracle, non-empty seeds, integer nonce and bomb count
in `[1, 24]`, the array built by the shuffle before truncation is a
permutation of `[0, 25)`, and the returned bomb indices are pairwise
distinct, lie in `[0, 25)`, and number exactly `bomb_count`. -/
theorem c5_permutation_bijection (H : String → String) (ss cs : String) (n : ℤ) (b : ℕ)
    (hss : ss ≠ "") (hcs : cs ≠ "") (hb1 : 1 ≤ b) (hb2 : b ≤ 24) :
    (fisherYatesPermutation H (H (ss ++ "-" ++ cs ++ "-" ++ toString n))).Perm (List.range 25) ∧
    (generateBombLocations H ss cs (.num n) (.num (b : ℤ))).Nodup ∧
    (∀ x ∈ generateBombLocations H ss cs (.num n) (.num (b : ℤ)), x < 25) ∧
    (generateBombLocations H ss cs (.num n) (.num (b : ℤ))).length = b := by
  have hv := generateBombLocations_valid H ss cs n b hss hcs (by omega)
  exact ⟨fisherYatesPermutation_perm H _, hv.2.1, hv.2.2.1, hv.2.2.2⟩

/-- Closed instance of C5 at a concrete hash oracle and seeds. -/
theorem c5_permutation_bijection_witness :
    (fisherYatesPermutation (fun _ => "c0ffee") ((fun _ => "c0ffee") ("s" ++ "-" ++ "c" ++ "-" ++ toString (2 : ℤ)))).Perm (List.range 25) ∧
    (generateBombLocations (fun _ => "c0ffee") "s" "c" (.num 2) (.num ((5 : ℕ) : ℤ))).Nodup ∧
    (∀ x ∈ generateBombLocations (fun _ => "c0ffee") "s" "c" (.num 2) (.num ((5 : ℕ) : ℤ)), x < 25) ∧
    (generateBombLocations (fun _ => "c0ffee") "s" "c" (.num 2) (.num ((5 : ℕ) : ℤ))).length = 5 :=
  c5_permutation_bijection (fun _ => "c0ffee") "s" "c" 2 5 (by decide) (by decide) (by decide) (by decide)

/-- C8: for every bomb count the multiplier at zero safe reveals is exactly
the house edge `0.99`, because the cumulative chance is the empty product 1. -/
theorem c8_multiplier_at_zero_reveals (b : ℕ) : calculateMultiplier 0 b = 99 / 100 := by
  simp [calculateMultiplier, chanceLoop]

/-- C6 counterexample: the multiplier is not strictly increasing in the bomb
count at `safe_revealed = 0`, where it is constantly the house edge. -/
theorem c6_counterexample_constant_at_zero :
    ¬ (calculateMultiplier 0 1 < calculateMultiplier 0 2) := by
  norm_num [calculateMultiplier, chanceLoop]

/-- C6 (amended): the multiplier is strictly increasing in `safe_revealed`
for every fixed bomb count in `[1, 24]` over the valid range, and strictly
increasing in the bomb count for every fixed `safe_revealed ≥ 1` over the
valid range (at `safe_revealed = 0` it is constant). -/
theorem c6_multiplier_strictly_monotone :
    (∀ b k, 1 ≤ b → b + k + 1 ≤ 25 → calculateMultiplier k b < calculateMultiplier (k + 1) b) ∧
    (∀ b k, 1 ≤ k → (b + 1) + k ≤ 25 → calculateMultiplier k b < calculateMultiplier k (b + 1)) := by
  constructor
  · intro b k hb h
    have hlt := chanceLoop_succ_lt b k hb h
    have hpos := chanceLoop_pos b (k + 1) (by omega)
    exact div_lt_div_of_pos_left (by norm_num) hpos hlt
  · intro b k hk h
    have hlt := chanceLoop_anti_bomb b k hk h
    have hpos := chanceLoop_pos (b + 1) k (by omega)
    exact div_lt_div_of_pos_left (by norm_num) hpos hlt

/-- Closed instance of C6's amended monotonicity at concrete arguments. -/
theorem c6_multiplier_strictly_monotone_witness :
    calculateMultiplier 3 5 < calculateMultiplier 4 5 ∧
    calculateMultiplier 3 5 < calculateMultiplier 3 6 :=
  ⟨c6_multiplier_strictly_monotone.1 5 3 (by norm_num) (by norm_num),
   c6_multiplier_strictly_monotone.2 5 3 (by norm_num) (by norm_num)⟩

/-- C7: in a playing solo round, revealing an unrevealed bomb tile finishes
the round, reveals every tile, and the settlement records a total loss of
the stake with multiplier 0, regardless of prior safe reveals. -/
theorem c7_reveal_bomb_busts (st : SoloState) (i : ℕ) (t : STile)
    (hplay : st.gameState = .playing) (hget : st.tiles.get? i = some t)
    (hbomb : t.isBomb = true) (hunrev : t.isRevealed = false) :
    (revealTileClick st i).gameState = .finished ∧
    (revealTileClick st i).tiles.all (fun t2 => t2.isRevealed) = true ∧
    settleSolo (revealTileClick st i) =
      { netProfit := -st.betAmount, wageredAmount := st.betAmount, multiplier := 0 } := by
  have hget2 : st.tiles[i]? = some t := by simpa [← List.get?_eq_getElem?] using hget
  have hred : revealTileClick st i =
      { st with gameState := .finished,
                tiles := st.tiles.map (fun t2 => { t2 with isRevealed := true }) } := by
    simp [revealTileClick, hplay, gameReducer, hget2, hunrev, hbomb]
  rw [hred]
  refine ⟨rfl, by simp, ?_⟩
  have hany : ((st.tiles.map (fun t2 => { t2 with isRevealed := true })).any
      (fun t2 => t2.isBomb && t2.isRevealed)) = true := by
    rw [List.any_eq_true]
    exact ⟨{ t with isRevealed := true }, List.mem_map.mpr ⟨t, List.get?_mem hget, rfl⟩, by simp [hbomb]⟩
  simp [settleSolo, hany]

/-- Closed instance of C7 on a concrete playing round with a bomb at tile 0. -/
theorem c7_reveal_bomb_busts_witness :
    (revealTileClick soloBombState 0).gameState = .finished ∧
    (revealTileClick soloBombState 0).tiles.all (fun t2 => t2.isRevealed) = true ∧
    settleSolo (revealTileClick soloBombState 0) =
      { netProfit := -soloBombState.betAmount, wageredAmount := soloBombState.betAmount,
        multiplier := 0 } :=
  c7_reveal_bomb_busts soloBombState 0
    { id := 0, isRevealed := false, isBomb := true, isSelected := false }
    rfl rfl rfl rfl

/-- C10: revealing an unrevealed bomb tile changes only the phase and the
tiles: the stored safe-reveal count, multiplier, bet amount and bomb count
are untouched, so the multiplier recorded in the finished state is the
pre-bust multiplier, not 0. -/
theorem c10_bomb_reveal_frame (st : SoloState) (i : ℕ) (t : STile)
    (hget : st.tiles.get? i = some t) (hbomb : t.isBomb = true) (hunrev : t.isRevealed = false) :
    (gameReducer st (.revealTile i)).safeRevealed = st.safeRevealed ∧
    (gameReducer st (.revealTile i)).currentMultiplier = st.currentMultiplier ∧
    (gameReducer st (.revealTile i)).betAmount = st.betAmount ∧
    (gameReducer st (.revealTile i)).bombCount = st.bombCount := by
  have hget2 : st.tiles[i]? = some t := by simpa [← List.get?_eq_getElem?] using hget
  simp [gameReducer, hget2, hunrev, hbomb]

/-- Closed instance of C10 on a concrete playing round with a bomb at tile 0. -/
theorem c10_bomb_reveal_frame_witness :
    (gameReducer soloBombState (.revealTile 0)).safeRevealed = soloBombState.safeRevealed ∧
    (gameReducer soloBombState (.revealTile 0)).currentMultiplier = soloBombState.currentMultiplier ∧
    (gameReducer soloBombState (.revealTile 0)).betAmount = soloBombState.betAmount ∧
    (gameReducer soloBombState (.revealTile 0)).bombCount = soloBombState.bombCount :=
  c10_bomb_reveal_frame soloBombState 0
    { id := 0, isRevealed := false, isBomb := true, isSelected := false }
    rfl rfl rfl

/-- C2 (code bug): on the jackpot board (24 bombs, one safe tile, stake 1),
revealing the single safe tile does finish the round with every tile
revealed and stores multiplier 24.75, but the settlement effect records a
full loss (net -1, multiplier 0) instead of a win of stake times the current
multiplier, because all-tiles-revealed includes the bombs and the loss test
is "some revealed tile is a bomb". -/
theorem c2_full_clear_settled_as_loss :
    (gameReducer jackpotState (.revealTile 0)).gameState = .finished ∧
    (gameReducer jackpotState (.revealTile 0)).tiles.all (fun t2 => t2.isRevealed) = true ∧
    (gameReducer jackpotState (.revealTile 0)).currentMultiplier = 99 / 4 ∧
    settleSolo (gameReducer jackpotState (.revealTile 0)) =
      { netProfit := -1, wageredAmount := 1, multiplier := 0 } := by
  have h3 : (gameReducer jackpotState (.revealTile 0)).currentMultiplier =
      calculateMultiplier 1 24 := rfl
  refine ⟨by decide, by decide, ?_, ?_⟩
  · rw [h3]
    norm_num [calculateMultiplier, chanceLoop]
  · have hany : ((gameReducer jackpotState (.revealTile 0)).tiles.any
        (fun t2 => t2.isBomb && t2.isRevealed)) = true := by decide
    have hbet : (gameReducer jackpotState (.revealTile 0)).betAmount = 1 := rfl
    simp [settleSolo, hany, hbet]

/-- C4 counterexample: round creation performs no check on the shuffle
result. With an empty server seed (and a positive bet) `initializeGame`
still starts a `playing` round whose board has zero bombs, instead of
failing with a configuration error. -/
theorem c4_counterexample_silent_zero_bombs :
    ((initializeGame (fun _ => "") "" none 0 { soloInitialState with betAmount := 1 }).map
      (fun s => (s.gameState, s.tiles.countP (fun t2 => t2.isBomb)))) =
      some (.playing, 0) := by decide

/-- C4 (amended): the shuffle returns an empty result whenever a seed is
empty or the nonce or bomb count is `NaN`; round creation never feeds it
such inputs when its random server seed is non-empty (the client seed falls
back to a non-empty placeholder and the nonce is a number), and then the
started round carries exactly `bomb_count` bombs — but the caller never
checks the shuffle output itself. -/
theorem c4_empty_on_invalid_and_bombs_on_valid :
    (∀ (H : String → String) (ss cs : String) (n b : JSNum),
        ss = "" ∨ cs = "" ∨ n.isNaN = true ∨ b.isNaN = true →
        generateBombLocations H ss cs n b = []) ∧
    (∀ (H : String → String) (ss : String) (cso : Option String) (tg : ℕ) (st : SoloState),
        ss ≠ "" → 0 < st.betAmount → st.bombCount ≤ 24 →
        ((initializeGame H ss cso tg st).map
          (fun s => (s.gameState, s.tiles.countP (fun t2 => t2.isBomb)))) =
          some (.playing, st.bombCount)) := by
  constructor
  · intro H ss cs n b h
    simp only [generateBombLocations]
    rw [if_pos h]
  · intro H ss cso tg st hss hbet hb
    have hcs : defaultClientSeed cso ≠ "" := by
      match cso with
      | none => simp [defaultClientSeed]
      | some s =>
        by_cases hs : s = "" <;> simp [defaultClientSeed, hs]
    have hv := generateBombLocations_valid H ss (defaultClientSeed cso) ((tg : ℤ) + 1)
      st.bombCount hss hcs (by omega)
    simp only [initializeGame]
    rw [if_neg (not_le.mpr hbet)]
    simp only [Option.map_some', Option.some.injEq, gameReducer]
    refine Prod.ext rfl ?_
    simp only [List.countP_map]
    have hcomp : ((fun t2 => t2.isBomb) ∘ fun i =>
        ({ id := i, isRevealed := false,
           isBomb := (generateBombLocations H ss (defaultClientSeed cso)
             (.num ((tg : ℤ) + 1)) (.num (st.bombCount : ℤ))).contains i,
           isSelected := false } : STile)) = fun i =>
        (generateBombLocations H ss (defaultClientSeed cso)
          (.num ((tg : ℤ) + 1)) (.num (st.bombCount : ℤ))).contains i := rfl
    rw [hcomp, countP_range_contains _ 25 hv.2.1 hv.2.2.1, hv.2.2.2]

/-- Closed instance of C4's amended claim at concrete inputs. -/
theorem c4_empty_on_invalid_and_bombs_on_valid_witness :
    generateBombLocations (fun _ => "z") "" "c" (.num 1) (.num 3) = [] ∧
    ((initializeGame (fun _ => "z") "srv" none 0 { soloInitialState with betAmount := 1 }).map
      (fun s => (s.gameState, s.tiles.countP (fun t2 => t2.isBomb)))) = some (.playing, 5) :=
  ⟨c4_empty_on_invalid_and_bombs_on_valid.1 (fun _ => "z") "" "c" (.num 1) (.num 3) (Or.inl rfl),
   c4_empty_on_invalid_and_bombs_on_valid.2 (fun _ => "z") "srv" none 0
     { soloInitialState with betAmount := 1 } (by decide) (by norm_num [soloInitialState]) (by decide)⟩

theorem filterSafe_length_set (l : List DTile) : ∀ (i : ℕ) (a b : DTile),
    l.get? i = some a → a.isBomb = true → b.isBomb = true →
    ((l.set i b).filter (fun x => !x.isBomb && x.isRevealed)).length =
      (l.filter (fun x => !x.isBomb && x.isRevealed)).length := by
  induction l with
  | nil => intro i a b h _ _; simp at h
  | cons y ys ih =>
    intro i a b hget ha hb
    cases i with
    | zero =>
      have hy : y = a := by simpa using hget
      subst hy
      simp [List.filter_cons, ha, hb]
    | succ i =>
      have htail := ih i a b (by simpa using hget) ha hb
      simp only [List.set_cons_succ, List.filter_cons]
      cases hy : (!y.isBomb && y.isRevealed) <;> simp [htail]

theorem filterSafe_length_set_safeReveal (l : List DTile) : ∀ (i : ℕ) (a b : DTile),
    l.get? i = some a → a.isBomb = false → a.isRevealed = false →
    b.isBomb = false → b.isRevealed = true →
    ((l.set i b).filter (fun x => !x.isBomb && x.isRevealed)).length =
      (l.filter (fun x => !x.isBomb && x.isRevealed)).length + 1 := by
  induction l with
  | nil => intro i a b h _ _ _ _; simp at h
  | cons y ys ih =>
    intro i a b hget ha1 ha2 hb1 hb2
    cases i with
    | zero =>
      have hy : y = a := by simpa using hget
      subst hy
      simp [List.filter_cons, ha1, ha2, hb1, hb2]
    | succ i =>
      have htail := ih i a b (by simpa using hget) ha1 ha2 hb1 hb2
      simp only [List.set_cons_succ, List.filter_cons]
      cases hy : (!y.isBomb && y.isRevealed) <;> simp [htail]

theorem duelPlaceMines_proj (placeO : ℕ → ℕ → ℕ → String → Finset ℕ) (i : ℕ) (st : DuelState) :
    (duelPlaceMines placeO i st).playerHasHitBomb = st.playerHasHitBomb ∧
    (duelPlaceMines placeO i st).opponentHasHitBomb = st.opponentHasHitBomb := by
  unfold duelPlaceMines
  split <;> simp

theorem duelApplyReveal_opponent_playerFlag (st : DuelState) (i : ℕ) (st2 : DuelState)
    (h : duelApplyReveal st i .opponent = some st2) :
    st2.playerHasHitBomb = st.playerHasHitBomb := by
  unfold duelApplyReveal at h
  cases hg : st.tiles.get? i with
  | none => rw [hg] at h; simp at h
  | some t0 =>
    rw [hg] at h
    simp only [Option.some.injEq] at h
    subst h
    split <;> simp

theorem duelApplyReveal_player_opponentFlag (st : DuelState) (i : ℕ) (st2 : DuelState)
    (h : duelApplyReveal st i .player = some st2) :
    st2.opponentHasHitBomb = st.opponentHasHitBomb := by
  unfold duelApplyReveal at h
  cases hg : st.tiles.get? i with
  | none => rw [hg] at h; simp at h
  | some t0 =>
    rw [hg] at h
    simp only [Option.some.injEq] at h
    subst h
    split <;> simp

/-- C3 counterexample: the coinflip side computed by the code is a function
of the external seedrandom generator, not of a normalized SHA-256 digest:
there are oracle valuations where the code's tie-break and the spec's
SHA-256 tie-break disagree on the same round seed. -/
theorem c3_counterexample_tiebreak_not_sha256 :
    tieBreakWinner (fun _ => 0) "seed" ≠ tieBreakWinnerSpec (fun _ => 1) "seed" := by
  have h1 : tieBreakWinner (fun _ => 0) "seed" = .player := by
    norm_num [tieBreakWinner]
  have h2 : tieBreakWinnerSpec (fun _ => 1) "seed" = .opponent := by
    norm_num [tieBreakWinnerSpec]
  rw [h1, h2]
  simp

/-- C3 (amended): when both sides end with equal reveal counts — both busted
with equal scores, or all safe tiles revealed with equal scores — the move
puts the round in the coinflip-pending state (over, no winner yet, dialog
open on the side derived from seedrandom seeded with `round_seed ++ "tie"`
compared against 0.5); the tie-break coin is always exactly one of the two
sides; and completing the coinflip writes exactly that one winner, closing
the dialog — never both sides, never neither, and no second tie. -/
theorem c3_tie_coinflip_exactly_one_winner :
    (∀ (placeO : ℕ → ℕ → ℕ → String → Finset ℕ) (rng : String → ℚ)
       (st : DuelState) (cf : CoinflipState) (i : ℕ) (t : DTile),
        st.gameOver = false → st.minesPlaced = true →
        st.activeTurn = .player → st.playerHasHitBomb = false → st.opponentHasHitBomb = true →
        st.winner = none → st.tiles.get? i = some t → t.isBomb = true →
        st.playerScore = st.opponentScore →
        ((st.tiles.filter (fun x => !x.isBomb && x.isRevealed)).length : ℤ) ≠ 25 - (st.bombCount : ℤ) →
        (processMove placeO rng st cf i .player).state.gameOver = true ∧
        (processMove placeO rng st cf i .player).state.winner = none ∧
        (processMove placeO rng st cf i .player).coinflip =
          { showFlag := true, winner := some (tieBreakWinner rng st.gameSeed) } ∧
        (processMove placeO rng st cf i .player).settled = none) ∧
    (∀ (placeO : ℕ → ℕ → ℕ → String → Finset ℕ) (rng : String → ℚ)
       (st : DuelState) (cf : CoinflipState) (i : ℕ) (t : DTile),
        st.gameOver = false → st.minesPlaced = true →
        st.activeTurn = .player → st.playerHasHitBomb = false →
        st.winner = none → st.tiles.get? i = some t → t.isBomb = false → t.isRevealed = false →
        st.playerScore + 1 = st.opponentScore →
        ((st.tiles.filter (fun x => !x.isBomb && x.isRevealed)).length : ℤ) = 25 - (st.bombCount : ℤ) - 1 →
        (processMove placeO rng st cf i .player).state.gameOver = true ∧
        (processMove placeO rng st cf i .player).state.winner = none ∧
        (processMove placeO rng st cf i .player).coinflip =
          { showFlag := true, winner := some (tieBreakWinner rng st.gameSeed) } ∧
        (processMove placeO rng st cf i .player).settled = none) ∧
    (∀ (rng : String → ℚ) (s : String),
        tieBreakWinner rng s = .player ↔ ¬ tieBreakWinner rng s = .opponent) ∧
    (∀ (w : Side) (st : DuelState) (cf : CoinflipState),
        (handleCoinflipComplete w st cf).1.winner = some w ∧
        (handleCoinflipComplete w st cf).2.1.showFlag = false) := by
  refine ⟨?_, ?_, ?_, ?_⟩
  · intro placeO rng st cf i t hgo hmp hturn hpb hob hwin hget hbomb hsc hnotall
    have hrej : duelRejected st .player = false := by
      simp [duelRejected, hgo, hpb, hturn]
    have hpm : duelPlaceMines placeO i st = st := by
      simp [duelPlaceMines, hmp]
    have hrev : duelApplyReveal st i .player =
        some { st with
               tiles := st.tiles.set i { t with isRevealed := true, revealedBy := some .player },
               playerHasHitBomb := true } := by
      unfold duelApplyReveal
      rw [hget]
      simp [hbomb]
    have hfl : ((st.tiles.set i { t with isRevealed := true, revealedBy := some .player }).filter
        (fun x => !x.isBomb && x.isRevealed)).length =
        (st.tiles.filter (fun x => !x.isBomb && x.isRevealed)).length :=
      filterSafe_length_set st.tiles i t _ hget hbomb (by simp [hbomb])
    have hout : duelOutcome
        { st with
          tiles := st.tiles.set i { t with isRevealed := true, revealedBy := some .player },
          playerHasHitBomb := true } = (true, none, true) := by
      unfold duelOutcome
      rw [if_neg (by simpa [hfl] using hnotall)]
      rw [if_neg (by simp [hsc])]
      rw [if_neg (by simp [hsc])]
      rw [if_pos (by simp [hob])]
      rw [if_neg (by simp [hsc]), if_neg (by simp [hsc])]
    have hres : processMove placeO rng st cf i .player =
        ⟨{ st with
           tiles := st.tiles.set i { t with isRevealed := true, revealedBy := some .player },
           playerHasHitBomb := true, gameOver := true },
         { showFlag := true, winner := some (tieBreakWinner rng st.gameSeed) }, none⟩ := by
      simp [processMove, hrej, hpm, hrev, hout]
    rw [hres]
    exact ⟨rfl, by simpa using hwin, rfl, rfl⟩
  · intro placeO rng st cf i t hgo hmp hturn hpb hwin hget hbomb hunrev hsc hall
    have hrej : duelRejected st .player = false := by
      simp [duelRejected, hgo, hpb, hturn]
    have hpm : duelPlaceMines placeO i st = st := by
      simp [duelPlaceMines, hmp]
    have hrev : duelApplyReveal st i .player =
        some { st with
               tiles := st.tiles.set i { t with isRevealed := true, revealedBy := some .player },
               playerScore := st.playerScore + 1 } := by
      unfold duelApplyReveal
      rw [hget]
      simp [hbomb]
    have hfl : ((st.tiles.set i { t with isRevealed := true, revealedBy := some .player }).filter
        (fun x => !x.isBomb && x.isRevealed)).length =
        (st.tiles.filter (fun x => !x.isBomb && x.isRevealed)).length + 1 :=
      filterSafe_length_set_safeReveal st.tiles i t _ hget hbomb hunrev (by simp [hbomb]) (by simp)
    have hout : duelOutcome
        { st with
          tiles := st.tiles.set i { t with isRevealed := true, revealedBy := some .player },
          playerScore := st.playerScore + 1 } = (true, none, true) := by
      unfold duelOutcome
      rw [if_pos (by push_cast [hfl]; omega)]
      rw [if_neg (by simp; omega), if_neg (by simp; omega)]
    have hres : processMove placeO rng st cf i .player =
        ⟨{ st with
           tiles := st.tiles.set i { t with isRevealed := true, revealedBy := some .player },
           playerScore := st.playerScore + 1, gameOver := true },
         { showFlag := true, winner := some (tieBreakWinner rng st.gameSeed) }, none⟩ := by
      simp [processMove, hrej, hpm, hrev, hout]
    rw [hres]
    exact ⟨rfl, by simpa using hwin, rfl, rfl⟩
  · intro rng s
    unfold tieBreakWinner
    split <;> simp
  · intro w st cf
    exact ⟨rfl, rfl⟩

/-- Closed instance of C3's amended claim on both tie paths: a busted
opponent with level scores and a bomb on the player's last reveal, and a
board whose final safe reveal levels the scores, each trigger the coinflip. -/
theorem c3_tie_coinflip_exactly_one_winner_witness :
    ((processMove (fun _ _ _ _ => ∅) (fun _ => 0) duelTieState ⟨false, none⟩ 0 .player).state.gameOver = true ∧
     (processMove (fun _ _ _ _ => ∅) (fun _ => 0) duelTieState ⟨false, none⟩ 0 .player).state.winner = none ∧
     (processMove (fun _ _ _ _ => ∅) (fun _ => 0) duelTieState ⟨false, none⟩ 0 .player).coinflip =
       { showFlag := true, winner := some (tieBreakWinner (fun _ => 0) duelTieState.gameSeed) } ∧
     (processMove (fun _ _ _ _ => ∅) (fun _ => 0) duelTieState ⟨false, none⟩ 0 .player).settled = none) ∧
    ((processMove (fun _ _ _ _ => ∅) (fun _ => 0) duelAllSafeTieState ⟨false, none⟩ 0 .player).state.gameOver = true ∧
     (processMove (fun _ _ _ _ => ∅) (fun _ => 0) duelAllSafeTieState ⟨false, none⟩ 0 .player).state.winner = none ∧
     (processMove (fun _ _ _ _ => ∅) (fun _ => 0) duelAllSafeTieState ⟨false, none⟩ 0 .player).coinflip =
       { showFlag := true, winner := some (tieBreakWinner (fun _ => 0) duelAllSafeTieState.gameSeed) } ∧
     (processMove (fun _ _ _ _ => ∅) (fun _ => 0) duelAllSafeTieState ⟨false, none⟩ 0 .player).settled = none) :=
  ⟨c3_tie_coinflip_exactly_one_winner.1 (fun _ _ _ _ => ∅) (fun _ => 0) duelTieState ⟨false, none⟩ 0
     { id := 0, isRevealed := false, isBomb := true, revealedBy := none }
     rfl rfl rfl rfl rfl rfl rfl rfl rfl (by decide),
   c3_tie_coinflip_exactly_one_winner.2.1 (fun _ _ _ _ => ∅) (fun _ => 0) duelAllSafeTieState ⟨false, none⟩ 0
     { id := 0, isRevealed := false, isBomb := false, revealedBy := none }
     rfl rfl rfl rfl rfl rfl rfl rfl rfl (by decide)⟩

/-- C9: a duel move is rejected with no state change when the round is over,
the acting side has busted, or it is not that side's turn; a set bust flag
is never cleared by any move, so a busted side never moves again; and the
turn-skip effect passes the turn of a busted side to the other side while
changing nothing but the turn pointer. -/
theorem c9_rejection_skip_and_bust_permanence :
    (∀ (placeO : ℕ → ℕ → ℕ → String → Finset ℕ) (rng : String → ℚ)
       (st : DuelState) (cf : CoinflipState) (i : ℕ) (m : Side),
        st.gameOver = true → processMove placeO rng st cf i m = ⟨st, cf, none⟩) ∧
    (∀ (placeO : ℕ → ℕ → ℕ → String → Finset ℕ) (rng : String → ℚ)
       (st : DuelState) (cf : CoinflipState) (i : ℕ),
        st.playerHasHitBomb = true → processMove placeO rng st cf i .player = ⟨st, cf, none⟩) ∧
    (∀ (placeO : ℕ → ℕ → ℕ → String → Finset ℕ) (rng : String → ℚ)
       (st : DuelState) (cf : CoinflipState) (i : ℕ),
        st.opponentHasHitBomb = true → processMove placeO rng st cf i .opponent = ⟨st, cf, none⟩) ∧
    (∀ (placeO : ℕ → ℕ → ℕ → String → Finset ℕ) (rng : String → ℚ)
       (st : DuelState) (cf : CoinflipState) (i : ℕ),
        st.activeTurn ≠ .player → processMove placeO rng st cf i .player = ⟨st, cf, none⟩) ∧
    (∀ (placeO : ℕ → ℕ → ℕ → String → Finset ℕ) (rng : String → ℚ)
       (st : DuelState) (cf : CoinflipState) (i : ℕ),
        st.activeTurn ≠ .opponent → processMove placeO rng st cf i .opponent = ⟨st, cf, none⟩) ∧
    (∀ (placeO : ℕ → ℕ → ℕ → String → Finset ℕ) (rng : String → ℚ)
       (st : DuelState) (cf : CoinflipState) (i : ℕ) (m : Side),
        st.playerHasHitBomb = true →
        (processMove placeO rng st cf i m).state.playerHasHitBomb = true) ∧
    (∀ (placeO : ℕ → ℕ → ℕ → String → Finset ℕ) (rng : String → ℚ)
       (st : DuelState) (cf : CoinflipState) (i : ℕ) (m : Side),
        st.opponentHasHitBomb = true →
        (processMove placeO rng st cf i m).state.opponentHasHitBomb = true) ∧
    (∀ st : DuelState, st.gameOver = false → st.activeTurn = .player → st.playerHasHitBomb = true →
        skipBustedTurn st = { st with activeTurn := .opponent }) ∧
    (∀ st : DuelState, st.gameOver = false → st.activeTurn = .opponent → st.opponentHasHitBomb = true →
        skipBustedTurn st = { st with activeTurn := .player }) := by
  refine ⟨?_, ?_, ?_, ?_, ?_, ?_, ?_, ?_, ?_⟩
  · intro placeO rng st cf i m h
    simp [processMove, duelRejected, h]
  · intro placeO rng st cf i h
    simp [processMove, duelRejected, h]
  · intro placeO rng st cf i h
    simp [processMove, duelRejected, h]
  · intro placeO rng st cf i h
    simp [processMove, duelRejected, h]
  · intro placeO rng st cf i h
    simp [processMove, duelRejected, h]
  · intro placeO rng st cf i m h
    cases m with
    | player =>
      have hrej : duelRejected st .player = true := by simp [duelRejected, h]
      simp [processMove, hrej, h]
    | opponent =>
      by_cases hrej : duelRejected st .opponent = true
      · simp [processMove, hrej, h]
      · simp only [processMove]
        rw [if_neg hrej]
        cases har : duelApplyReveal (duelPlaceMines placeO i st) i .opponent with
        | none => simp [h]
        | some st2 =>
          have h2 : st2.playerHasHitBomb = true := by
            rw [duelApplyReveal_opponent_playerFlag _ _ _ har,
              (duelPlaceMines_proj placeO i st).1]
            exact h
          rcases ho : duelOutcome st2 with ⟨go, wo, co⟩
          cases go <;> cases wo <;> simp [h2, ho]
  · intro placeO rng st cf i m h
    cases m with
    | opponent =>
      have hrej : duelRejected st .opponent = true := by simp [duelRejected, h]
      simp [processMove, hrej, h]
    | player =>
      by_cases hrej : duelRejected st .player = true
      · simp [processMove, hrej, h]
      · simp only [processMove]
        rw [if_neg hrej]
        cases har : duelApplyReveal (duelPlaceMines placeO i st) i .player with
        | none => simp [h]
        | some st2 =>
          have h2 : st2.opponentHasHitBomb = true := by
            rw [duelApplyReveal_player_opponentFlag _ _ _ har,
              (duelPlaceMines_proj placeO i st).2]
            exact h
          rcases ho : duelOutcome st2 with ⟨go, wo, co⟩
          cases go <;> cases wo <;> simp [h2, ho]
  · intro st h1 h2 h3
    simp [skipBustedTurn, h1, h2, h3]
  · intro st h1 h2 h3
    simp [skipBustedTurn, h1, h2, h3]

/-- Closed instance of C9: a finished round rejects a player move, and the
turn-skip hands the busted opponent's turn back to the player. -/
theorem c9_rejection_skip_and_bust_permanence_witness :
    processMove (fun _ _ _ _ => ∅) (fun _ => 0) { duelTieState with gameOver := true }
      ⟨false, none⟩ 0 .player =
      ⟨{ duelTieState with gameOver := true }, ⟨false, none⟩, none⟩ ∧
    skipBustedTurn { duelTieState with activeTurn := .opponent } =
      { { duelTieState with activeTurn := .opponent } with activeTurn := .player } :=
  ⟨c9_rejection_skip_and_bust_permanence.1 (fun _ _ _ _ => ∅) (fun _ => 0)
     { duelTieState with gameOver := true } ⟨false, none⟩ 0 .player rfl,
   c9_rejection_skip_and_bust_permanence.2.2.2.2.2.2.2.2
     { duelTieState with activeTurn := .opponent } rfl rfl rfl⟩
